import Mathlib

/-!
Verification development for the paper-lifecycle engine of the
CD_AI_back_end repository (src/app/api/v1/endpoints/papers.py).

The Python handlers are shallowly embedded as pure Lean functions over an
explicit database state.  Machine integers are modelled as `Int`/`Nat`
(the quantities involved never overflow 64 bits in the source), strings
as Lean `String` (the embedding is faithful on ASCII and on the fixed
Chinese status literals used by the source), and the pymysql connection
(`autocommit=False`, buffered writes, `commit`/`rollback`) as an
explicit transaction step with a failure oracle.
-/

namespace CDAI

/-! ## Version parsing (`_parse_version` in papers.py)

The source does `version_str.strip().lower().lstrip('v')`, splits on a
single dot into exactly two parts, converts each part with Python
`int(...)` and rejects negative components.  Python `int` on a string
strips surrounding whitespace, allows one optional sign, and allows
single underscores between digits. -/

def isAsciiDigit (c : Char) : Bool :=
  (48 ≤ c.toNat) && (c.toNat ≤ 57)

/-- Python string whitespace (the characters `str.strip` removes, ASCII
part). -/
def isPySpace (c : Char) : Bool :=
  c = ' ' || c = '\t' || c = '\n' || c = '\r' || c = '\x0b' || c = '\x0c'

/-- Python `s.strip()` on a character list: drop whitespace from both
ends. -/
def trimChars (cs : List Char) : List Char :=
  ((cs.dropWhile isPySpace).reverse.dropWhile isPySpace).reverse

/-- Python `s.split('.')` on a character list: split at every dot,
keeping empty pieces. -/
def pySplitDot : List Char → List (List Char)
  | [] => [[]]
  | c :: rest =>
    if c = '.' then [] :: pySplitDot rest
    else
      match pySplitDot rest with
      | h :: t => (c :: h) :: t
      | [] => [[c]]

def digitsVal (cs : List Char) : Nat :=
  cs.foldl (fun n c => n * 10 + (c.toNat - '0'.toNat)) 0

/-- Tail of a Python integer literal after its first digit: digits with
single underscores allowed between digit groups. -/
def pyDigitsRest : List Char → Bool
  | [] => true
  | [c] => isAsciiDigit c
  | c :: d :: rest =>
    if c = '_' then isAsciiDigit d && pyDigitsRest rest
    else isAsciiDigit c && pyDigitsRest (d :: rest)

/-- Body of a Python integer literal (no sign): nonempty, starts with a
digit, underscores only between digits.  Returns the numeric value. -/
def pyIntLit : List Char → Option Nat
  | [] => none
  | c :: rest =>
    if isAsciiDigit c && pyDigitsRest rest then
      some (digitsVal ((c :: rest).filter (fun d => d ≠ '_')))
    else
      none

/-- Model of Python `int(s)` on ASCII text: strip surrounding
whitespace, optional single sign, then an integer literal body. -/
def pyIntChars (cs : List Char) : Option Int :=
  match trimChars cs with
  | [] => none
  | c :: rest =>
    if c = '+' then (pyIntLit rest).map (fun n => (n : Int))
    else if c = '-' then (pyIntLit rest).map (fun n => -(n : Int))
    else (pyIntLit (c :: rest)).map (fun n => (n : Int))

/-- Model of `version_str.strip().lower().lstrip('v')` from the source:
trim, ASCII-lowercase, then drop every leading `v`. -/
def cleanVersion (s : String) : List Char :=
  ((trimChars s.toList).map Char.toLower).dropWhile (fun c => c = 'v')

/-- Embedding of `_parse_version`: `none` stands for the
HTTP 400 `InvalidVersionFormat` exception raised by the source. -/
def parse_version (s : String) : Option (Int × Int) :=
  match pySplitDot (cleanVersion s) with
  | [a, b] =>
    match pyIntChars a, pyIntChars b with
    | some major, some minor =>
      if major < 0 || minor < 0 then none else some (major, minor)
    | _, _ => none
  | _ => none

/-- Python tuple comparison `(a1,a2) < (b1,b2)`, the order used by
`update_paper` through `new_version <= current_version`. -/
def verLt (x y : Int × Int) : Bool :=
  x.1 < y.1 || (x.1 = y.1 && x.2 < y.2)

def verLe (x y : Int × Int) : Bool :=
  verLt x y || x = y

inductive VerOrd where
  | less
  | equal
  | greater
deriving DecidableEq

/-- The comparison the spec calls `compare(a, b)`, realised in the source
by Python tuple ordering of the parsed pairs. -/
def compareVersions (x y : Int × Int) : VerOrd :=
  if verLt x y then VerOrd.less
  else if x = y then VerOrd.equal
  else VerOrd.greater

/-! ## Status literals

The six status strings used by papers.py.  In the spec they are named
Uploaded, PendingReview, Reviewed, Updated, NeedsUpdate, Final. -/

def stUploaded : String := "已上传"
def stPending : String := "待审阅"
def stReviewed : String := "已审阅"
def stUpdated : String := "已更新"
def stNeedsUpdate : String := "待更新"
def stFinal : String := "已定稿"

/-! ## Data model

One `papers` row, one `papers_history` row, and the database state seen
by the endpoints: the association list of paper rows keyed by id plus
the history table in insertion order. -/

structure Paper where
  owner_id : Int
  teacher_id : Int
  latest_version : String
  version : String
  size : Nat
  status : String
  oss_key : String
  submitted_by_name : String
  submitted_by_role : String
  operated_by : Option String
  operated_time : Option String
  created_at : String
  updated_at : String
deriving DecidableEq

structure HistoryRow where
  paper_id : Nat
  version : String
  size : Nat
  status : String
  oss_key : String
  submitted_by_id : String
  submitted_by_name : String
  submitted_by_role : String
  operated_by : String
  operated_time : String
  created_at : String
deriving DecidableEq

structure DB where
  papers : List (Nat × Paper)
  history : List HistoryRow
deriving DecidableEq

def DB.findPaper (db : DB) (pid : Nat) : Option Paper :=
  db.papers.lookup pid

def DB.setPaper (db : DB) (pid : Nat) (p : Paper) : DB :=
  { db with papers := db.papers.map (fun kv => if kv.1 = pid then (pid, p) else kv) }

def DB.addHistory (db : DB) (row : HistoryRow) : DB :=
  { db with history := db.history ++ [row] }

/-- Actor identity after `_parse_current_user`: the `sub` / `username` /
`roles` fields the endpoints read from the parsed dict. -/
structure CurrentUser where
  sub : Int
  username : String
  roles : List String
deriving DecidableEq

/-- Python `",".join(str(r) for r in roles)`. -/
def joinRoles (roles : List String) : String :=
  String.intercalate (",") roles

/-- Python `current_user.get("username") or str(login_user_id)`:
falls back to the stringified id when the username is empty. -/
def nameOrId (name : String) (uid : Int) : String :=
  if name = "" then toString uid else name

/-- Error classes of the endpoints, one constructor per raise site kind.
`httpCode` below maps them to the HTTP status the source uses. -/
inductive ApiError where
  | notFound
  | unauthenticated
  | forbidden
  | alreadyFinal
  | invalidTransition
  | versionFormat
  | versionNotIncreasing
  | notDocx
  | emptyFile
  | tooLarge
  | badOwnerId
  | badTeacherId
  | notUploaded
  | noStatus
  | dbError
deriving DecidableEq

def httpCode : ApiError → Nat
  | ApiError.notFound => 404
  | ApiError.unauthenticated => 401
  | ApiError.forbidden => 403
  | ApiError.alreadyFinal => 403
  | ApiError.invalidTransition => 400
  | ApiError.versionFormat => 400
  | ApiError.versionNotIncreasing => 400
  | ApiError.notDocx => 400
  | ApiError.emptyFile => 400
  | ApiError.tooLarge => 400
  | ApiError.badOwnerId => 400
  | ApiError.badTeacherId => 400
  | ApiError.notUploaded => 400
  | ApiError.noStatus => 404
  | ApiError.dbError => 500

/-- Transaction failure oracle: whether the buffered row write, the
buffered history insert, or the final `db.commit()` raises
`pymysql.MySQLError`.  The connection is opened with
`autocommit=False` (app/database.py), so on any failure the handler's
`db.rollback()` (or the discarded uncommitted transaction) leaves the
committed state untouched. -/
structure TxFail where
  failRowWrite : Bool
  failHistWrite : Bool
  failCommit : Bool
deriving DecidableEq

def noFail : TxFail := ⟨false, false, false⟩

def TxFail.any (tx : TxFail) : Bool :=
  tx.failRowWrite || tx.failHistWrite || tx.failCommit

/-- Python `file.filename.lower().endswith(".docx")`. -/
def endsWithDocx (filename : String) : Bool :=
  List.isSuffixOf (['.', 'd', 'o', 'c', 'x']) (filename.toList.map Char.toLower)

/-- Python `("admin" in current_roles) or ("管理员" in current_roles)`. -/
def isAdminRoles (roles : List String) : Bool :=
  roles.contains ("admin") || roles.contains ("管理员")

/-- The `status_rules` dict of `update_paper_status`, including the
`.get(current_status, {}).get(role_key, [])` defaults. -/
def status_rules (current roleKey : String) : List String :=
  if current = stPending then
    (if roleKey = "student" then [stPending]
     else if roleKey = "teacher" then [stReviewed, stFinal] else [])
  else if current = stReviewed then
    (if roleKey = "student" then [stUpdated]
     else if roleKey = "teacher" then [stReviewed, stFinal] else [])
  else if current = stUpdated then
    (if roleKey = "student" then [stUpdated]
     else if roleKey = "teacher" then [stNeedsUpdate, stFinal] else [])
  else if current = stNeedsUpdate then
    (if roleKey = "student" then [stUpdated]
     else if roleKey = "teacher" then [stNeedsUpdate, stFinal] else [])
  else []

/-- Response model `PaperStatusOut` (the fields the status endpoints
return, minus the formatted timestamp). -/
structure PaperStatusOut where
  paper_id : Nat
  version : String
  status : String
  size : Nat
deriving DecidableEq

/-! ## POST /upload (`upload_paper`)

The blob write (`upload_paper_to_storage`) happens before the
transaction; its result is the `ossKey` argument.  `newId` is the
auto-increment id MySQL assigns to the inserted row
(`cursor.lastrowid`). -/

def upload_paper (db : DB) (tx : TxFail) (newId : Nat) (owner_id teacher_id : Int)
    (filename : String) (size : Nat) (user : CurrentUser) (ossKey now : String) :
    DB × Except ApiError Paper :=
  if owner_id ≤ 0 then (db, Except.error ApiError.badOwnerId)
  else if teacher_id ≤ 0 then (db, Except.error ApiError.badTeacherId)
  else if owner_id ≠ user.sub then (db, Except.error ApiError.forbidden)
  else if ¬ endsWithDocx filename then (db, Except.error ApiError.notDocx)
  else if size > 104857600 then (db, Except.error ApiError.tooLarge)
  else
    let roleStr := joinRoles user.roles
    let p : Paper :=
      { owner_id := owner_id, teacher_id := teacher_id,
        latest_version := "v1.0", version := "v1.0", size := size,
        status := stUploaded, oss_key := ossKey,
        submitted_by_name := user.username, submitted_by_role := roleStr,
        operated_by := none, operated_time := none,
        created_at := now, updated_at := now }
    let row : HistoryRow :=
      { paper_id := newId, version := "v1.0", size := size,
        status := stUploaded, oss_key := ossKey,
        submitted_by_id := toString user.sub,
        submitted_by_name := user.username, submitted_by_role := roleStr,
        operated_by := nameOrId user.username user.sub,
        operated_time := now, created_at := now }
    if tx.any then (db, Except.error ApiError.dbError)
    else ({ papers := db.papers ++ [(newId, p)],
            history := db.history ++ [row] }, Except.ok p)

/-! ## PUT /{paper_id} (`update_paper`) -/

def update_paper (db : DB) (tx : TxFail) (pid : Nat) (filename : String)
    (size : Nat) (version : String) (user : CurrentUser) (ossKey now : String) :
    DB × Except ApiError Paper :=
  if ¬ endsWithDocx filename then (db, Except.error ApiError.notDocx)
  else if size = 0 then (db, Except.error ApiError.emptyFile)
  else if size > 104857600 then (db, Except.error ApiError.tooLarge)
  else match db.findPaper pid with
  | none => (db, Except.error ApiError.notFound)
  | some p =>
    if p.owner_id ≠ user.sub then (db, Except.error ApiError.forbidden)
    else match parse_version p.latest_version with
    | none => (db, Except.error ApiError.versionFormat)
    | some cur => match parse_version version with
      | none => (db, Except.error ApiError.versionFormat)
      | some newv =>
        if verLe newv cur then (db, Except.error ApiError.versionNotIncreasing)
        else
          let roleStr := joinRoles user.roles
          let p' : Paper :=
            { p with latest_version := version, version := version,
                     size := size, status := stUpdated,
                     submitted_by_name := user.username,
                     submitted_by_role := roleStr, oss_key := ossKey,
                     updated_at := now,
                     operated_by := some user.username,
                     operated_time := some now }
          let row : HistoryRow :=
            { paper_id := pid, version := version, size := size,
              status := stUpdated, oss_key := ossKey,
              submitted_by_id := toString user.sub,
              submitted_by_name := user.username, submitted_by_role := roleStr,
              operated_by := nameOrId user.username user.sub,
              operated_time := now, created_at := now }
          if tx.any then (db, Except.error ApiError.dbError)
          else ((db.setPaper pid p').addHistory row, Except.ok p')

/-! ## POST /{paper_id}/status (`create_paper_status`)

The `status` query parameter is hardwired to `待审阅` by the source. -/

def create_paper_status (db : DB) (tx : TxFail) (pid : Nat) (user : CurrentUser)
    (now : String) : DB × Except ApiError PaperStatusOut :=
  if user.sub ≤ 0 then (db, Except.error ApiError.unauthenticated)
  else match db.findPaper pid with
  | none => (db, Except.error ApiError.notFound)
  | some p =>
    if p.status ≠ stUploaded then (db, Except.error ApiError.notUploaded)
    else if user.sub ≠ p.owner_id then (db, Except.error ApiError.forbidden)
    else
      let oper := nameOrId user.username user.sub
      let p' : Paper :=
        { p with status := stPending, operated_by := some oper,
                 operated_time := some now, updated_at := now }
      let row : HistoryRow :=
        { paper_id := pid, version := p.latest_version, size := p.size,
          status := stPending, oss_key := p.oss_key,
          submitted_by_id := toString p.owner_id,
          submitted_by_name := p.submitted_by_name,
          submitted_by_role := p.submitted_by_role,
          operated_by := oper, operated_time := now, created_at := now }
      if tx.any then (db, Except.error ApiError.dbError)
      else ((db.setPaper pid p').addHistory row,
            Except.ok ⟨pid, p.latest_version, stPending, p.size⟩)

/-! ## PUT /{paper_id}/status (`update_paper_status`)

The handler is split into the read phase (the initial `SELECT`s, which
take no row lock) and the validate-and-commit phase, exactly at the
statement boundary of the source; the sequential endpoint is their
composition on the same state.  The split is what lets two concurrent
requests interleave between phases. -/

structure StatusSnap where
  owner_id : Int
  teacher_id : Int
  latest_version : String
  oss_key : String
  size : Nat
  status : String
deriving DecidableEq

/-- The two plain SELECTs at the start of `update_paper_status` (no
`FOR UPDATE`). -/
def readStatusSnap (db : DB) (pid : Nat) : Option StatusSnap :=
  (db.findPaper pid).map (fun p =>
    ⟨p.owner_id, p.teacher_id, p.latest_version, p.oss_key, p.size, p.status⟩)

/-- Validation of `update_paper_status`, performed entirely against the
snapshot from the read phase: empty-status guard, ownership guard,
absorbing-Final guard, then the `status_rules` table. -/
def ups_validate (snap : StatusSnap) (target : String) (user : CurrentUser) :
    Option ApiError :=
  if snap.status = "" then some ApiError.noStatus
  else if ¬(user.sub = snap.owner_id ∨ user.sub = snap.teacher_id) then
    some ApiError.forbidden
  else
    let roleKey := if user.sub = snap.owner_id then "student" else "teacher"
    if snap.status = stFinal then some ApiError.alreadyFinal
    else if target ∈ status_rules snap.status roleKey then none
    else some ApiError.invalidTransition

/-- Write phase of `update_paper_status`: the unconditional `UPDATE` of
the paper row, the re-`SELECT` of the submitter fields, the history
`INSERT` built from the stale snapshot, and the commit. -/
def ups_commit (db : DB) (tx : TxFail) (pid : Nat) (snap : StatusSnap)
    (target : String) (user : CurrentUser) (now : String) :
    DB × Except ApiError PaperStatusOut :=
  let oper := nameOrId user.username user.sub
  let subFields := match db.findPaper pid with
    | some cur => (cur.submitted_by_name, cur.submitted_by_role)
    | none => ("", "")
  let row : HistoryRow :=
    { paper_id := pid, version := snap.latest_version, size := snap.size,
      status := target, oss_key := snap.oss_key,
      submitted_by_id := toString snap.owner_id,
      submitted_by_name := subFields.1, submitted_by_role := subFields.2,
      operated_by := oper, operated_time := now, created_at := now }
  let db1 := match db.findPaper pid with
    | some cur => db.setPaper pid
        { cur with status := target, operated_by := some oper,
                   operated_time := some now, updated_at := now }
    | none => db
  if tx.any then (db, Except.error ApiError.dbError)
  else (db1.addHistory row,
        Except.ok ⟨pid, snap.latest_version, target, snap.size⟩)

def update_paper_status (db : DB) (tx : TxFail) (pid : Nat) (target : String)
    (user : CurrentUser) (now : String) : DB × Except ApiError PaperStatusOut :=
  if user.sub ≤ 0 then (db, Except.error ApiError.unauthenticated)
  else match readStatusSnap db pid with
  | none => (db, Except.error ApiError.notFound)
  | some snap =>
    match ups_validate snap target user with
    | some e => (db, Except.error e)
    | none => ups_commit db tx pid snap target user now

/-! ## DELETE /{paper_id} (`delete_paper`) -/

/-- Modelled from the spec: the `papers_history` table's DDL is not
under src/ (database_setup.py only contains the divergent
`paper_versions` schema variant); §3 of the spec says history rows are
"deleted only as a cascade of `Paper` deletion", so deleting a paper
also removes that paper's history rows. -/
def cascadeDeleteHistory (db : DB) (pid : Nat) : DB :=
  { db with history := db.history.filter (fun r => r.paper_id ≠ pid) }

def delete_paper (db : DB) (tx : TxFail) (pid : Nat) (user : CurrentUser) :
    DB × Except ApiError Nat :=
  if user.sub = 0 then (db, Except.error ApiError.unauthenticated)
  else match db.findPaper pid with
  | none => (db, Except.error ApiError.notFound)
  | some p =>
    if ¬(p.owner_id = user.sub ∨ isAdminRoles user.roles) then
      (db, Except.error ApiError.forbidden)
    else if tx.failRowWrite || tx.failCommit then
      (db, Except.error ApiError.dbError)
    else
      (cascadeDeleteHistory
        { db with papers := db.papers.filter (fun kv => kv.1 ≠ pid) } pid,
       Except.ok pid)

/-! ## `_parse_current_user`

The helper is total in the source (every failure path falls through to
the `{"sub": 0, "username": "", "roles": []}` sentinel).  URL-decoding
(`urllib.parse.unquote`) and `json.loads` are taken as parameters of
the embedding: theorems either hold for every choice of the two or
carry the hypothesis that characterises them on the relevant input
(e.g. `unquote s = s` for percent-free strings, `jsonLoads s = none`
for non-JSON input).  JSON values are the usual inductive. -/

inductive Jval where
  | jnull
  | jbool (b : Bool)
  | jnum (n : Int)
  | jstr (s : String)
  | jarr (xs : List Jval)
  | jobj (fields : List (String × Jval))

/-- The callers' `data.get("sub", 0)` (the id is an integer wherever it
is used). -/
def subOf (fields : List (String × Jval)) : Int :=
  match fields.lookup ("sub") with
  | some (Jval.jnum n) => n
  | _ => 0

/-- The callers' `data.get("username") or ""`. -/
def usernameOf (fields : List (String × Jval)) : String :=
  match fields.lookup ("username") with
  | some (Jval.jstr s) => s
  | _ => ""

/-- The callers' `data.get("roles") or []`, keeping the string
entries. -/
def rolesOf (fields : List (String × Jval)) : List String :=
  match fields.lookup ("roles") with
  | some (Jval.jarr xs) =>
    xs.filterMap (fun v => match v with | Jval.jstr s => some s | _ => none)
  | _ => []

/-- Model of Python `str.isdigit` on ASCII strings: nonempty and all
ASCII digits. -/
def allDigits (s : String) : Bool :=
  (s ≠ "") && s.toList.all isAsciiDigit

def digitsToNat (s : String) : Nat :=
  digitsVal s.toList

/-- The unauthenticated sentinel `{"sub": 0, "username": "", "roles": []}`. -/
def sentinelUser : CurrentUser := ⟨0, "", []⟩

/-- Embedding of `_parse_current_user`.  `input = none` is a missing
query parameter; `if not current_user` in Python is also true for the
empty string. -/
def parse_current_user (unquote : String → String)
    (jsonLoads : String → Option Jval) (input : Option String) : CurrentUser :=
  match input with
  | none => sentinelUser
  | some cu =>
    if cu = "" then sentinelUser
    else
      let raw := unquote cu
      if trimChars raw.toList = [] then sentinelUser
      else if allDigits raw then
        ⟨(digitsToNat raw : Nat), "user" ++ raw, ["student"]⟩
      else match jsonLoads raw with
        | some (Jval.jobj fields) => ⟨subOf fields, usernameOf fields, rolesOf fields⟩
        | _ => sentinelUser

/-! ## Definitions taken from the spec's words

These are the comparison points for the claims; everything above is
translated from the source. -/

inductive Role where
  | student
  | teacher
deriving DecidableEq

/-- The §4.2 transition table exactly as the claim lists it:
student: PendingReview→PendingReview, Reviewed→Updated,
Updated→Updated, NeedsUpdate→Updated; teacher:
PendingReview→{Reviewed, Final}, Reviewed→{Reviewed, Final},
Updated→{NeedsUpdate, Final}, NeedsUpdate→{NeedsUpdate, Final}. -/
def specTable (current : String) (role : Role) (target : String) : Bool :=
  match role with
  | Role.student =>
    (current = stPending && target = stPending) ||
    (current = stReviewed && target = stUpdated) ||
    (current = stUpdated && target = stUpdated) ||
    (current = stNeedsUpdate && target = stUpdated)
  | Role.teacher =>
    (current = stPending && (target = stReviewed || target = stFinal)) ||
    (current = stReviewed && (target = stReviewed || target = stFinal)) ||
    (current = stUpdated && (target = stNeedsUpdate || target = stFinal)) ||
    (current = stNeedsUpdate && (target = stNeedsUpdate || target = stFinal))

/-- The body of the version format exactly as the claim words it, after
the optional leading `v`: `<int>.<int>` with non-negative components,
i.e. two nonempty ASCII digit runs separated by one dot. -/
def dropOneV (cs : List Char) : List Char :=
  match cs with
  | c :: rest => if c = 'v' ∨ c = 'V' then rest else c :: rest
  | [] => []

/-- The version-string format exactly as the claim words it: an
optional single leading `v` (case-insensitive) followed by
`<int>.<int>` with non-negative components. -/
def specVersionFormat (s : String) : Bool :=
  match pySplitDot (dropOneV s.toList) with
  | [a, b] => (a ≠ []) && a.all isAsciiDigit && (b ≠ []) && b.all isAsciiDigit
  | _ => false

/-- The parse the claim describes on its accepted inputs: the two digit
runs read as non-negative integers. -/
def specVersionParse (s : String) : Option (Int × Int) :=
  match pySplitDot (dropOneV s.toList) with
  | [a, b] =>
    if (a ≠ []) && a.all isAsciiDigit && (b ≠ []) && b.all isAsciiDigit then
      some ((digitsVal a : Nat), (digitsVal b : Nat))
    else none
  | _ => none

/-! ## Result inspection and concrete fixtures -/

def isOk {α : Type} : Except ApiError α → Bool
  | Except.ok _ => true
  | Except.error _ => false

/-- A single paper of student 5 under teacher 9, in the given status. -/
def paperAt (st : String) : Paper :=
  { owner_id := 5, teacher_id := 9, latest_version := "v1.0", version := "v1.0",
    size := 10, status := st, oss_key := "k", submitted_by_name := "alice",
    submitted_by_role := "student", operated_by := some "alice",
    operated_time := some "t0", created_at := "t0", updated_at := "t0" }

/-- A database holding exactly `paperAt st` under id 1 and no history. -/
def dbWith (st : String) : DB := ⟨[(1, paperAt st)], []⟩

def student5 : CurrentUser := ⟨5, "alice", ["student"]⟩

def teacher9 : CurrentUser := ⟨9, "tina", ["teacher"]⟩

/-- The paper owner authenticated through a JSON dict with no
`username` field, as `_parse_current_user` produces for
`{"sub": 5}`. -/
def noName5 : CurrentUser := ⟨5, "", []⟩

/-- The snapshot the read phase of `update_paper_status` captures from
`dbWith stReviewed`. -/
def raceSnap : StatusSnap := ⟨5, 9, "v1.0", "k", 10, stReviewed⟩

/-! ## Helper lemmas -/

@[simp] theorem status_distinct :
    stUploaded ≠ stPending ∧ stPending ≠ stUploaded ∧
    stUploaded ≠ stReviewed ∧ stReviewed ≠ stUploaded ∧
    stUploaded ≠ stUpdated ∧ stUpdated ≠ stUploaded ∧
    stUploaded ≠ stNeedsUpdate ∧ stNeedsUpdate ≠ stUploaded ∧
    stUploaded ≠ stFinal ∧ stFinal ≠ stUploaded ∧
    stPending ≠ stReviewed ∧ stReviewed ≠ stPending ∧
    stPending ≠ stUpdated ∧ stUpdated ≠ stPending ∧
    stPending ≠ stNeedsUpdate ∧ stNeedsUpdate ≠ stPending ∧
    stPending ≠ stFinal ∧ stFinal ≠ stPending ∧
    stReviewed ≠ stUpdated ∧ stUpdated ≠ stReviewed ∧
    stReviewed ≠ stNeedsUpdate ∧ stNeedsUpdate ≠ stReviewed ∧
    stReviewed ≠ stFinal ∧ stFinal ≠ stReviewed ∧
    stUpdated ≠ stNeedsUpdate ∧ stNeedsUpdate ≠ stUpdated ∧
    stUpdated ≠ stFinal ∧ stFinal ≠ stUpdated ∧
    stNeedsUpdate ≠ stFinal ∧ stFinal ≠ stNeedsUpdate ∧
    stUploaded ≠ "" ∧ stPending ≠ "" ∧ stReviewed ≠ "" ∧
    stUpdated ≠ "" ∧ stNeedsUpdate ≠ "" ∧ stFinal ≠ "" ∧
    ("student" : String) ≠ "teacher" ∧ ("teacher" : String) ≠ "student" := by
  decide

theorem verLt_true_iff (x y : Int × Int) :
    verLt x y = true ↔ (x.1 < y.1 ∨ (x.1 = y.1 ∧ x.2 < y.2)) := by
  simp [verLt]

theorem verLe_true_iff (x y : Int × Int) :
    verLe x y = true ↔ (x.1 < y.1 ∨ (x.1 = y.1 ∧ x.2 ≤ y.2)) := by
  obtain ⟨a, b⟩ := x
  obtain ⟨c, d⟩ := y
  simp [verLe, verLt, Prod.ext_iff]
  omega

theorem verLe_false_iff (x y : Int × Int) :
    verLe x y = false ↔ verLt y x = true := by
  obtain ⟨a, b⟩ := x
  obtain ⟨c, d⟩ := y
  simp [verLe, verLt, Prod.ext_iff]
  omega

theorem lookup_set (l : List (Nat × Paper)) (pid : Nat) (q : Paper)
    (h : (l.lookup pid).isSome = true) :
    (l.map (fun kv => if kv.1 = pid then (pid, q) else kv)).lookup pid = some q := by
  induction l with
  | nil => simp [List.lookup] at h
  | cons kv tl ih =>
    obtain ⟨k, v⟩ := kv
    by_cases hk : k = pid
    · subst hk
      simp [List.lookup_cons]
    · have hne : (pid == k) = false := by
        simp [Ne.symm hk]
      simp only [List.map_cons, if_neg hk, List.lookup_cons, hne] at h ⊢
      exact ih h

theorem findPaper_setPaper (db : DB) (pid : Nat) (p q : Paper)
    (h : db.findPaper pid = some p) :
    (db.setPaper pid q).findPaper pid = some q := by
  have hs : (db.papers.lookup pid).isSome = true := by
    unfold DB.findPaper at h
    rw [h]
    rfl
  exact lookup_set db.papers pid q hs

theorem lookup_filter_out (l : List (Nat × Paper)) (pid : Nat) :
    (l.filter (fun kv => kv.1 ≠ pid)).lookup pid = none := by
  induction l with
  | nil => rfl
  | cons kv tl ih =>
    obtain ⟨k, v⟩ := kv
    rw [List.filter_cons]
    by_cases hk : k = pid
    · have hcond : (decide ((k, v).1 ≠ pid)) = false := by
        simp [hk]
      rw [hcond]
      simpa using ih
    · have hcond : (decide ((k, v).1 ≠ pid)) = true := by
        simp [hk]
      rw [hcond]
      have hne : (pid == k) = false := by
        simp [Ne.symm hk]
      simp only [if_true, List.lookup_cons, hne]
      exact ih

theorem lookup_append_fresh (l : List (Nat × Paper)) (pid : Nat) (p : Paper)
    (h : l.lookup pid = none) :
    (l ++ [(pid, p)]).lookup pid = some p := by
  induction l with
  | nil => simp [List.lookup_cons]
  | cons kv tl ih =>
    obtain ⟨k, v⟩ := kv
    by_cases hk : pid = k
    · subst hk
      simp [List.lookup_cons] at h
    · have hne : (pid == k) = false := by
        simp [hk]
      simp only [List.lookup_cons, hne] at h
      simpa [List.cons_append, List.lookup_cons, hne] using ih h

/-! ## C1 -/

/-- C1 (amended): for every paper whose current status is Final
(已定稿), every subsequent CreateReviewStatus call and every subsequent
ChangeStatus call, by any actor and any role, fails and leaves the
database unchanged.  Final is absorbing for the two status-machine
operations — but not for UpdatePaper, which ignores the status field
(see the counterexample). -/
theorem final_blocks_status_mutation (db : DB) (tx : TxFail) (pid : Nat)
    (p : Paper) (user : CurrentUser) (target now : String)
    (hfind : db.findPaper pid = some p) (hfin : p.status = stFinal) :
    (isOk (create_paper_status db tx pid user now).2 = false ∧
     (create_paper_status db tx pid user now).1 = db) ∧
    (isOk (update_paper_status db tx pid target user now).2 = false ∧
     (update_paper_status db tx pid target user now).1 = db) := by
  constructor
  · by_cases h0 : user.sub ≤ 0
    · simp [create_paper_status, h0, isOk]
    · simp [create_paper_status, h0, hfind, hfin, isOk]
  · by_cases h0 : user.sub ≤ 0
    · simp [update_paper_status, h0, isOk]
    · by_cases hmem : user.sub = p.owner_id ∨ user.sub = p.teacher_id
      · simp [update_paper_status, readStatusSnap, ups_validate, h0, hfind,
              hfin, hmem, isOk]
      · simp [update_paper_status, readStatusSnap, ups_validate, h0, hfind,
              hfin, hmem, isOk]

/-- C1 witness: concrete instance of the amended theorem on a Final
paper: the owner's CreateReviewStatus and the teacher's ChangeStatus
both fail and change nothing. -/
theorem final_blocks_status_mutation_witness :
    (isOk (create_paper_status (dbWith stFinal) noFail 1 student5 ("t1")).2 = false ∧
     (create_paper_status (dbWith stFinal) noFail 1 student5 ("t1")).1 = dbWith stFinal) ∧
    (isOk (update_paper_status (dbWith stFinal) noFail 1 stReviewed teacher9 ("t1")).2 = false ∧
     (update_paper_status (dbWith stFinal) noFail 1 stReviewed teacher9 ("t1")).1 = dbWith stFinal) := by
  have h1 := final_blocks_status_mutation (dbWith stFinal) noFail 1
    (paperAt stFinal) student5 stReviewed ("t1") rfl rfl
  have h2 := final_blocks_status_mutation (dbWith stFinal) noFail 1
    (paperAt stFinal) teacher9 stReviewed ("t1") rfl rfl
  exact ⟨h1.1, h2.2⟩

/-- C1 counterexample: on a paper whose status is Final, UpdatePaper by
the owner with a strictly greater version still succeeds and rewrites
the status field to Updated, so the status field of a Final paper can
be mutated again. -/
theorem final_not_absorbing_for_update :
    isOk (update_paper (dbWith stFinal) noFail 1 ("a.docx") 12 ("v2.0")
        student5 ("k2") ("t1")).2 = true ∧
    ((update_paper (dbWith stFinal) noFail 1 ("a.docx") 12 ("v2.0")
        student5 ("k2") ("t1")).1.findPaper 1).map Paper.status =
      some stUpdated ∧
    stUpdated ≠ stFinal := by
  refine ⟨rfl, rfl, by decide⟩

/-! ## C2 -/

theorem rules_student_eval (current : String) :
    status_rules current "student" =
      if current = stPending then [stPending]
      else if current = stReviewed then [stUpdated]
      else if current = stUpdated then [stUpdated]
      else if current = stNeedsUpdate then [stUpdated]
      else [] := by
  unfold status_rules
  split_ifs <;> simp_all

theorem rules_teacher_eval (current : String) :
    status_rules current "teacher" =
      if current = stPending then [stReviewed, stFinal]
      else if current = stReviewed then [stReviewed, stFinal]
      else if current = stUpdated then [stNeedsUpdate, stFinal]
      else if current = stNeedsUpdate then [stNeedsUpdate, stFinal]
      else [] := by
  unfold status_rules
  split_ifs <;> simp_all

theorem specTable_student_iff (current target : String) :
    specTable current Role.student target = true ↔
      target ∈ status_rules current "student" := by
  rw [rules_student_eval]
  unfold specTable
  split_ifs with h1 h2 h3 h4 <;> simp_all

theorem specTable_teacher_iff (current target : String) :
    specTable current Role.teacher target = true ↔
      target ∈ status_rules current "teacher" := by
  rw [rules_teacher_eval]
  unfold specTable
  split_ifs with h1 h2 h3 h4 <;> simp_all

theorem specTable_final (role : Role) (target : String) :
    specTable stFinal role target = false := by
  cases role <;> simp [specTable]

/-- C2 (amended): with an authenticated actor on an existing paper with
a nonempty status, ChangeStatus (1) fails with Forbidden for an actor
who is neither the paper's owner nor its teacher, and otherwise, with
the role the code derives (owner ⇒ student, else teacher): (2) succeeds
exactly when (current status, role, target) is in the §4.2 table, (3)
fails with InvalidTransition on every non-table triple whose current
status is not Final, and (4) fails with the dedicated AlreadyFinal
(HTTP 403) error — not InvalidTransition — when the current status is
Final. -/
theorem changeStatus_transition_table (db : DB) (pid : Nat) (target : String)
    (user : CurrentUser) (now : String) (p : Paper)
    (hauth : 0 < user.sub)
    (hfind : db.findPaper pid = some p)
    (hstat : p.status ≠ "") :
    (¬(user.sub = p.owner_id ∨ user.sub = p.teacher_id) →
      update_paper_status db noFail pid target user now =
        (db, Except.error ApiError.forbidden)) ∧
    ((user.sub = p.owner_id ∨ user.sub = p.teacher_id) →
      ((isOk (update_paper_status db noFail pid target user now).2 = true) ↔
        specTable p.status
          (if user.sub = p.owner_id then Role.student else Role.teacher)
          target = true) ∧
      (p.status ≠ stFinal →
        specTable p.status
          (if user.sub = p.owner_id then Role.student else Role.teacher)
          target = false →
        update_paper_status db noFail pid target user now =
          (db, Except.error ApiError.invalidTransition)) ∧
      (p.status = stFinal →
        update_paper_status db noFail pid target user now =
          (db, Except.error ApiError.alreadyFinal))) := by
  have h0 : ¬ user.sub ≤ 0 := by omega
  constructor
  · intro hmem
    simp [update_paper_status, readStatusSnap, hfind, h0, ups_validate, hstat,
          hmem]
  · intro hmem
    by_cases hfin : p.status = stFinal
    · refine ⟨?_, fun hne _ => absurd hfin hne, fun _ => ?_⟩
      · have hres : update_paper_status db noFail pid target user now =
            (db, Except.error ApiError.alreadyFinal) := by
          simp [update_paper_status, readStatusSnap, hfind, h0, ups_validate,
                hstat, hmem, hfin]
        rw [hres, hfin]
        by_cases hrole : user.sub = p.owner_id <;>
          simp [isOk, if_pos, if_neg, hrole, specTable_final]
      · simp [update_paper_status, readStatusSnap, hfind, h0, ups_validate,
              hstat, hmem, hfin]
    · by_cases hrole : user.sub = p.owner_id
      · have h0b : ¬ p.owner_id ≤ 0 := hrole ▸ h0
        by_cases htgt : target ∈ status_rules p.status "student"
        · have hOk : isOk (update_paper_status db noFail pid target user now).2 = true := by
            simp [update_paper_status, readStatusSnap, hfind, h0, h0b,
                  ups_validate, hstat, hmem, hfin, hrole, htgt, ups_commit,
                  noFail, TxFail.any, isOk]
          refine ⟨?_, ?_, fun hf => absurd hf hfin⟩
          · rw [hOk, if_pos hrole, (specTable_student_iff p.status target).mpr htgt]
          · intro _ htab
            have htrue := (specTable_student_iff p.status target).mpr htgt
            rw [if_pos hrole, htrue] at htab
            exact absurd htab (by decide)
        · have hres : update_paper_status db noFail pid target user now =
              (db, Except.error ApiError.invalidTransition) := by
            simp [update_paper_status, readStatusSnap, hfind, h0, h0b,
                  ups_validate, hstat, hmem, hfin, hrole, htgt]
          refine ⟨?_, fun _ _ => hres, fun hf => absurd hf hfin⟩
          rw [hres, if_pos hrole]
          simp [isOk, specTable_student_iff, htgt]
      · have hteach : user.sub = p.teacher_id := hmem.resolve_left hrole
        have h0c : ¬ p.teacher_id ≤ 0 := hteach ▸ h0
        have hrole2 : ¬ p.teacher_id = p.owner_id := hteach ▸ hrole
        by_cases htgt : target ∈ status_rules p.status "teacher"
        · have hOk : isOk (update_paper_status db noFail pid target user now).2 = true := by
            simp [update_paper_status, readStatusSnap, hfind, h0, h0c,
                  ups_validate, hstat, hmem, hfin, hrole, hrole2, hteach, htgt,
                  ups_commit, noFail, TxFail.any, isOk]
          refine ⟨?_, ?_, fun hf => absurd hf hfin⟩
          · rw [hOk, if_neg hrole, (specTable_teacher_iff p.status target).mpr htgt]
          · intro _ htab
            have htrue := (specTable_teacher_iff p.status target).mpr htgt
            rw [if_neg hrole, htrue] at htab
            exact absurd htab (by decide)
        · have hres : update_paper_status db noFail pid target user now =
              (db, Except.error ApiError.invalidTransition) := by
            simp [update_paper_status, readStatusSnap, hfind, h0, h0c,
                  ups_validate, hstat, hmem, hfin, hrole, hrole2, hteach, htgt]
          refine ⟨?_, fun _ _ => hres, fun hf => absurd hf hfin⟩
          rw [hres, if_neg hrole]
          simp [isOk, specTable_teacher_iff, htgt]

/-- C2 witness: teacher 9 moving the Reviewed paper to Final is in the
table and succeeds. -/
theorem changeStatus_transition_table_witness :
    isOk (update_paper_status (dbWith stReviewed) noFail 1 stFinal teacher9
      ("t1")).2 = true := by
  have h := changeStatus_transition_table (dbWith stReviewed) 1 stFinal teacher9
    ("t1") (paperAt stReviewed) (by decide) rfl (by decide)
  have hmem : teacher9.sub = (paperAt stReviewed).owner_id ∨
      teacher9.sub = (paperAt stReviewed).teacher_id := Or.inr (by decide)
  exact ((h.2 hmem).1).mpr (by decide)

/-- C2 counterexample: the triple (Final, teacher, Reviewed) is not in
the §4.2 table, yet ChangeStatus rejects it with the dedicated
already-final HTTP 403 error, not with the HTTP 400 InvalidTransition
error the claim names for every non-table triple. -/
theorem changeStatus_final_error_class :
    (update_paper_status (dbWith stFinal) noFail 1 stReviewed teacher9
        ("t1")).2 = Except.error ApiError.alreadyFinal ∧
    ApiError.alreadyFinal ≠ ApiError.invalidTransition ∧
    httpCode ApiError.alreadyFinal = 403 ∧
    httpCode ApiError.invalidTransition = 400 := by
  refine ⟨rfl, by decide, rfl, rfl⟩

/-! ## C3 -/

theorem verLt_false_of_le (x y : Int × Int) (h : verLe x y = true) :
    verLt y x = false := by
  obtain ⟨a, b⟩ := x
  obtain ⟨c, d⟩ := y
  simp [verLe, verLt, Prod.ext_iff] at h ⊢
  omega

theorem findPaper_addHistory (db : DB) (row : HistoryRow) (pid : Nat) :
    (db.addHistory row).findPaper pid = db.findPaper pid := rfl

theorem addHistory_history (db : DB) (row : HistoryRow) :
    (db.addHistory row).history = db.history ++ [row] := rfl

theorem setPaper_history (db : DB) (pid : Nat) (p : Paper) :
    (db.setPaper pid p).history = db.history := rfl

/-- C3: for a paper whose stored version parses to `va`, an UpdatePaper
call by the paper's owner with a well-formed file proposing version
string `b` is accepted exactly when `b` parses strictly greater than
`va` under (major, minor) tuple order; when `b` parses equal or less
the call fails with VersionNotIncreasing and the database — hence the
stored version — is unchanged; and on acceptance the stored version
fields become `b`, so across successive accepted updates the version
strictly increases and never decreases or repeats. -/
theorem updatePaper_version_monotonic (db : DB) (pid : Nat)
    (filename : String) (size : Nat) (b : String) (user : CurrentUser)
    (ossKey now : String) (p : Paper) (va : Int × Int)
    (hdocx : endsWithDocx filename = true)
    (hpos : size ≠ 0) (hmax : ¬ size > 104857600)
    (hfind : db.findPaper pid = some p)
    (howner : p.owner_id = user.sub)
    (hcur : parse_version p.latest_version = some va) :
    ((isOk (update_paper db noFail pid filename size b user ossKey now).2 = true) ↔
      (∃ vb, parse_version b = some vb ∧ verLt va vb = true)) ∧
    (∀ vb, parse_version b = some vb → verLe vb va = true →
      update_paper db noFail pid filename size b user ossKey now =
        (db, Except.error ApiError.versionNotIncreasing)) ∧
    (∀ vb, parse_version b = some vb → verLt va vb = true →
      (((update_paper db noFail pid filename size b user ossKey now).1.findPaper
          pid).map Paper.latest_version = some b ∧
       ((update_paper db noFail pid filename size b user ossKey now).1.findPaper
          pid).map Paper.version = some b)) := by
  cases hpb : parse_version b with
  | none =>
    refine ⟨?_, ?_, ?_⟩
    · simp [update_paper, hdocx, hpos, hmax, hfind, howner, hcur, hpb, isOk]
    · intro vb h2 h3
      cases h2
    · intro vb h2 h3
      cases h2
  | some vb =>
    by_cases hle : verLe vb va = true
    · have hres : update_paper db noFail pid filename size b user ossKey now =
          (db, Except.error ApiError.versionNotIncreasing) := by
        simp [update_paper, hdocx, hpos, hmax, hfind, howner, hcur, hpb, hle]
      refine ⟨?_, ?_, ?_⟩
      · rw [hres]
        simp [isOk, hpb, verLt_false_of_le vb va hle]
      · intro vb2 h2 h3
        exact hres
      · intro vb2 h2 hlt
        injection h2 with h2
        subst h2
        rw [verLt_false_of_le vb va hle] at hlt
        cases hlt
    · have hleF : verLe vb va = false := by
        revert hle
        cases verLe vb va <;> simp
      have hlt : verLt va vb = true := (verLe_false_iff vb va).mp hleF
      refine ⟨?_, ?_, ?_⟩
      · have hOk : isOk (update_paper db noFail pid filename size b user ossKey
            now).2 = true := by
          simp [update_paper, hdocx, hpos, hmax, hfind, howner, hcur, hpb,
                hleF, noFail, TxFail.any, isOk]
        rw [hOk]
        simp [hpb, hlt]
      · intro vb2 h2 hle2
        injection h2 with h2
        subst h2
        rw [hleF] at hle2
        cases hle2
      · intro vb2 h2 h3
        constructor <;>
          simp [update_paper, hdocx, hpos, hmax, hfind, howner, hcur, hpb,
                hleF, noFail, TxFail.any, findPaper_addHistory,
                findPaper_setPaper]

/-- C3 witness: the owner replaces v1.0 by v1.1 and the call is
accepted. -/
theorem updatePaper_version_monotonic_witness :
    isOk (update_paper (dbWith stUploaded) noFail 1 ("a.docx") 12 ("v1.1")
      student5 ("k2") ("t1")).2 = true := by
  have h := updatePaper_version_monotonic (dbWith stUploaded) 1 ("a.docx") 12
    ("v1.1") student5 ("k2") ("t1") (paperAt stUploaded) (1, 0)
    (by decide) (by decide) (by decide) rfl rfl rfl
  exact (h.1).mpr ⟨(1, 1), rfl, by decide⟩

/-! ## C6 -/

/-- C6: CreateReviewStatus succeeds exactly when the caller is
authenticated, the paper exists, its current status is exactly
Uploaded, and the caller is the paper's owner; the eligibility gate is
the paper row's own status column (the decision reads no history).  On
success the status becomes PendingReview, and a second
CreateReviewStatus call on the same paper by any authenticated caller
fails with the Conflict-class error (the status is no longer Uploaded)
and changes nothing. -/
theorem createReviewStatus_gate (db : DB) (pid : Nat) (user : CurrentUser)
    (now : String) :
    (isOk (create_paper_status db noFail pid user now).2 = true ↔
      (0 < user.sub ∧ ∃ p, db.findPaper pid = some p ∧
        p.status = stUploaded ∧ user.sub = p.owner_id)) ∧
    (isOk (create_paper_status db noFail pid user now).2 = true →
      ((create_paper_status db noFail pid user now).1.findPaper pid).map
        Paper.status = some stPending) ∧
    (isOk (create_paper_status db noFail pid user now).2 = true →
      ∀ u2 tx2 now2, 0 < u2.sub →
        create_paper_status ((create_paper_status db noFail pid user now).1)
          tx2 pid u2 now2 =
          ((create_paper_status db noFail pid user now).1,
           Except.error ApiError.notUploaded)) := by
  by_cases h0 : user.sub ≤ 0
  · have hErr : isOk (create_paper_status db noFail pid user now).2 = false := by
      simp [create_paper_status, h0, isOk]
    refine ⟨?_, fun hOk => absurd (hErr ▸ hOk) (by decide),
            fun hOk => absurd (hErr ▸ hOk) (by decide)⟩
    constructor
    · intro hOk
      exact absurd (hErr ▸ hOk) (by decide)
    · rintro ⟨hpos, _⟩
      exact absurd hpos (by omega)
  · cases hfind : db.findPaper pid with
    | none =>
      have hErr : isOk (create_paper_status db noFail pid user now).2 = false := by
        simp [create_paper_status, h0, hfind, isOk]
      refine ⟨?_, fun hOk => absurd (hErr ▸ hOk) (by decide),
              fun hOk => absurd (hErr ▸ hOk) (by decide)⟩
      constructor
      · intro hOk
        exact absurd (hErr ▸ hOk) (by decide)
      · rintro ⟨hpos, q, hq, _⟩
        cases hq
    | some p =>
      by_cases hst : p.status = stUploaded
      · by_cases how : user.sub = p.owner_id
        · have h0b : ¬ p.owner_id ≤ 0 := how ▸ h0
          have hOk : isOk (create_paper_status db noFail pid user now).2 = true := by
            simp [create_paper_status, h0, h0b, hfind, hst, how, noFail,
                  TxFail.any, isOk]
          refine ⟨?_, ?_, ?_⟩
          · rw [hOk]
            simp only [true_iff]
            exact ⟨by omega, p, rfl, hst, how⟩
          · intro _
            simp [create_paper_status, h0, h0b, hfind, hst, how, noFail,
                  TxFail.any, findPaper_addHistory, findPaper_setPaper]
          · intro _ u2 tx2 now2 hu2
            have h02 : ¬ u2.sub ≤ 0 := by omega
            simp [create_paper_status, h0, h0b, h02, hfind, hst, how, noFail,
                  TxFail.any, findPaper_addHistory, findPaper_setPaper]
        · have hErr : isOk (create_paper_status db noFail pid user now).2 = false := by
            simp [create_paper_status, h0, hfind, hst, how, isOk]
          refine ⟨?_, fun hOk => absurd (hErr ▸ hOk) (by decide),
                  fun hOk => absurd (hErr ▸ hOk) (by decide)⟩
          constructor
          · intro hOk
            exact absurd (hErr ▸ hOk) (by decide)
          · rintro ⟨hpos, q, hq, hqs, hqo⟩
            injection hq with hq
            subst hq
            exact absurd hqo how
      · have hErr : isOk (create_paper_status db noFail pid user now).2 = false := by
          simp [create_paper_status, h0, hfind, hst, isOk]
        refine ⟨?_, fun hOk => absurd (hErr ▸ hOk) (by decide),
                fun hOk => absurd (hErr ▸ hOk) (by decide)⟩
        constructor
        · intro hOk
          exact absurd (hErr ▸ hOk) (by decide)
        · rintro ⟨hpos, q, hq, hqs, hqo⟩
          injection hq with hq
          subst hq
          exact absurd hqs hst

/-- C6 witness: student 5 creates the review status on the freshly
uploaded paper and the call succeeds. -/
theorem createReviewStatus_gate_witness :
    isOk (create_paper_status (dbWith stUploaded) noFail 1 student5
      ("t1")).2 = true := by
  have h := createReviewStatus_gate (dbWith stUploaded) 1 student5 ("t1")
  exact (h.1).mpr ⟨by decide, paperAt stUploaded, rfl, rfl, rfl⟩

/-! ## C8 -/

/-- C8: DeletePaper succeeds exactly when the caller is authenticated
and is the paper's owner or holds an admin role; the paper's teacher
alone is refused with Forbidden; an accepted deletion removes the paper
row and, as a cascade in the same operation, exactly the history rows
of that paper; and none of the four mutation operations ever removes an
existing history row (each only appends). -/
theorem deletePaper_owner_admin_cascade (db : DB) (pid : Nat)
    (user : CurrentUser) :
    (isOk (delete_paper db noFail pid user).2 = true ↔
      (user.sub ≠ 0 ∧ ∃ p, db.findPaper pid = some p ∧
        (p.owner_id = user.sub ∨ isAdminRoles user.roles = true))) ∧
    (∀ p, db.findPaper pid = some p → user.sub ≠ 0 →
      user.sub = p.teacher_id → p.owner_id ≠ user.sub →
      isAdminRoles user.roles = false →
      delete_paper db noFail pid user = (db, Except.error ApiError.forbidden)) ∧
    (isOk (delete_paper db noFail pid user).2 = true →
      ((delete_paper db noFail pid user).1.findPaper pid = none ∧
       (delete_paper db noFail pid user).1.history =
         db.history.filter (fun r => r.paper_id ≠ pid))) ∧
    (∀ tx newId oid tid fn sz u2 k2 t2,
      ∃ tail, (upload_paper db tx newId oid tid fn sz u2 k2 t2).1.history =
        db.history ++ tail) ∧
    (∀ tx fn sz v u2 k2 t2,
      ∃ tail, (update_paper db tx pid fn sz v u2 k2 t2).1.history =
        db.history ++ tail) ∧
    (∀ tx u2 t2,
      ∃ tail, (create_paper_status db tx pid u2 t2).1.history =
        db.history ++ tail) ∧
    (∀ tx tgt u2 t2,
      ∃ tail, (update_paper_status db tx pid tgt u2 t2).1.history =
        db.history ++ tail) := by
  have hup : ∀ tx newId oid tid fn sz u2 k2 t2,
      ∃ tail, (upload_paper db tx newId oid tid fn sz u2 k2 t2).1.history =
        db.history ++ tail := by
    intro tx newId oid tid fn sz u2 k2 t2
    unfold upload_paper
    repeat' split
    all_goals first
      | exact ⟨_, rfl⟩
      | exact ⟨[], by simp⟩
  have hupd : ∀ tx fn sz v u2 k2 t2,
      ∃ tail, (update_paper db tx pid fn sz v u2 k2 t2).1.history =
        db.history ++ tail := by
    intro tx fn sz v u2 k2 t2
    unfold update_paper
    repeat' split
    all_goals first
      | exact ⟨_, rfl⟩
      | exact ⟨[], by simp⟩
  have hcps : ∀ tx u2 t2,
      ∃ tail, (create_paper_status db tx pid u2 t2).1.history =
        db.history ++ tail := by
    intro tx u2 t2
    unfold create_paper_status
    repeat' split
    all_goals first
      | exact ⟨_, rfl⟩
      | exact ⟨[], by simp⟩
  have hups : ∀ tx tgt u2 t2,
      ∃ tail, (update_paper_status db tx pid tgt u2 t2).1.history =
        db.history ++ tail := by
    intro tx tgt u2 t2
    unfold update_paper_status ups_commit
    repeat' split
    all_goals first
      | exact ⟨_, rfl⟩
      | exact ⟨[], by simp⟩
  refine ⟨?_, ?_, ?_, hup, hupd, hcps, hups⟩
  · by_cases h0 : user.sub = 0
    · have hErr : isOk (delete_paper db noFail pid user).2 = false := by
        simp [delete_paper, h0, isOk]
      constructor
      · intro hOk
        exact absurd (hErr ▸ hOk) (by decide)
      · rintro ⟨hpos, _⟩
        exact absurd h0 hpos
    · cases hfind : db.findPaper pid with
      | none =>
        have hErr : isOk (delete_paper db noFail pid user).2 = false := by
          simp [delete_paper, h0, hfind, isOk]
        constructor
        · intro hOk
          exact absurd (hErr ▸ hOk) (by decide)
        · rintro ⟨hpos, q, hq, _⟩
          cases hq
      | some p =>
        by_cases hz : p.owner_id = user.sub ∨ isAdminRoles user.roles = true
        · have hOk : isOk (delete_paper db noFail pid user).2 = true := by
            rcases hz with hz | hz <;>
              simp [delete_paper, h0, hfind, hz, noFail, isOk]
          rw [hOk]
          simp only [true_iff]
          exact ⟨h0, p, rfl, hz⟩
        · have hErr : isOk (delete_paper db noFail pid user).2 = false := by
            simp only [not_or] at hz
            simp [delete_paper, h0, hfind, hz.1, hz.2, isOk]
          constructor
          · intro hOk
            exact absurd (hErr ▸ hOk) (by decide)
          · rintro ⟨hpos, q, hq, hqz⟩
            injection hq with hq
            subst hq
            exact absurd hqz hz
  · intro p hfind h0 ht hno hadm
    have hz : ¬(p.owner_id = user.sub ∨ isAdminRoles user.roles = true) := by
      simp [hno, hadm]
    simp [delete_paper, h0, hfind, hz]
  · intro hOk
    by_cases h0 : user.sub = 0
    · simp [delete_paper, h0, isOk] at hOk
    · cases hfind : db.findPaper pid with
      | none => simp [delete_paper, h0, hfind, isOk] at hOk
      | some p =>
        by_cases hz : p.owner_id = user.sub ∨ isAdminRoles user.roles = true
        · have hres : delete_paper db noFail pid user =
              (cascadeDeleteHistory
                { db with papers := db.papers.filter (fun kv => kv.1 ≠ pid) }
                pid, Except.ok pid) := by
            rcases hz with hz | hz <;>
              simp [delete_paper, h0, hfind, hz, noFail]
          rw [hres]
          constructor
          · exact lookup_filter_out db.papers pid
          · rfl
        · simp [delete_paper, h0, hfind, hz, isOk] at hOk

/-- C8 witness: owner deletion of the only paper succeeds. -/
theorem deletePaper_owner_admin_cascade_witness :
    isOk (delete_paper (dbWith stUploaded) noFail 1 student5).2 = true := by
  have h := deletePaper_owner_admin_cascade (dbWith stUploaded) 1 student5
  exact (h.1).mpr ⟨by decide, paperAt stUploaded, rfl, Or.inl rfl⟩

/-! ## C5 -/

/-- C5: every write operation is atomic.  Each of the four mutations
either fails leaving the committed state exactly as it was, or succeeds
having applied both the paper-row write and the history append; and
when the transaction layer fails (row write, history insert, or commit
raising `pymysql.MySQLError`) on a call that would otherwise succeed,
the operation is rolled back to the pre-state and a server error
(HTTP 500) is returned. -/
theorem write_ops_atomic (db : DB) (tx : TxFail) (pid newId : Nat)
    (oid tid : Int) (fn : String) (sz : Nat) (v tgt : String)
    (user : CurrentUser) (k t : String) :
    ((∃ e, upload_paper db tx newId oid tid fn sz user k t =
        (db, Except.error e)) ∨
     (∃ p row, upload_paper db tx newId oid tid fn sz user k t =
        ({ papers := db.papers ++ [(newId, p)],
           history := db.history ++ [row] }, Except.ok p))) ∧
    ((∃ e, update_paper db tx pid fn sz v user k t = (db, Except.error e)) ∨
     (∃ p row, update_paper db tx pid fn sz v user k t =
        ((db.setPaper pid p).addHistory row, Except.ok p))) ∧
    ((∃ e, create_paper_status db tx pid user t = (db, Except.error e)) ∨
     (∃ p row out, create_paper_status db tx pid user t =
        ((db.setPaper pid p).addHistory row, Except.ok out))) ∧
    ((∃ e, update_paper_status db tx pid tgt user t = (db, Except.error e)) ∨
     (∃ p row out, update_paper_status db tx pid tgt user t =
        ((db.setPaper pid p).addHistory row, Except.ok out))) ∧
    (tx.any = true →
      (isOk (upload_paper db noFail newId oid tid fn sz user k t).2 = true →
        upload_paper db tx newId oid tid fn sz user k t =
          (db, Except.error ApiError.dbError)) ∧
      (isOk (update_paper db noFail pid fn sz v user k t).2 = true →
        update_paper db tx pid fn sz v user k t =
          (db, Except.error ApiError.dbError)) ∧
      (isOk (create_paper_status db noFail pid user t).2 = true →
        create_paper_status db tx pid user t =
          (db, Except.error ApiError.dbError)) ∧
      (isOk (update_paper_status db noFail pid tgt user t).2 = true →
        update_paper_status db tx pid tgt user t =
          (db, Except.error ApiError.dbError))) := by
  refine ⟨?_, ?_, ?_, ?_, ?_⟩
  · unfold upload_paper
    repeat' split
    all_goals first
      | exact Or.inl ⟨_, rfl⟩
      | exact Or.inr ⟨_, _, rfl⟩
  · unfold update_paper
    repeat' split
    all_goals first
      | exact Or.inl ⟨_, rfl⟩
      | exact Or.inr ⟨_, _, rfl⟩
  · unfold create_paper_status
    repeat' split
    all_goals first
      | exact Or.inl ⟨_, rfl⟩
      | exact Or.inr ⟨_, _, _, rfl⟩
  · unfold update_paper_status ups_commit
    repeat' split
    all_goals first
      | exact Or.inl ⟨_, rfl⟩
      | exact Or.inr ⟨_, _, _, rfl⟩
      | simp_all [readStatusSnap]
  · intro htx
    refine ⟨?_, ?_, ?_, ?_⟩
    · intro hOk
      by_cases c1 : oid ≤ 0
      · simp [upload_paper, c1, isOk] at hOk
      by_cases c2 : tid ≤ 0
      · simp [upload_paper, c1, c2, isOk] at hOk
      by_cases c3 : oid ≠ user.sub
      · simp [upload_paper, c1, c2, c3, isOk] at hOk
      have heq : oid = user.sub := not_ne_iff.mp c3
      have c1b : ¬ user.sub ≤ 0 := heq ▸ c1
      by_cases c4 : ¬ endsWithDocx fn = true
      · simp [upload_paper, c1, c1b, c2, c3, c4, isOk] at hOk
      by_cases c5 : sz > 104857600
      · simp [upload_paper, c1, c1b, c2, c3, c4, c5, isOk] at hOk
      simp [upload_paper, c1, c1b, c2, c3, c4, c5, htx]
    · intro hOk
      by_cases c1 : ¬ endsWithDocx fn = true
      · simp [update_paper, c1, isOk] at hOk
      by_cases c2 : sz = 0
      · simp [update_paper, c1, c2, isOk] at hOk
      by_cases c3 : sz > 104857600
      · simp [update_paper, c1, c2, c3, isOk] at hOk
      rcases hf : db.findPaper pid with _ | p
      · simp [update_paper, c1, c2, c3, hf, isOk] at hOk
      by_cases c4 : p.owner_id ≠ user.sub
      · simp [update_paper, c1, c2, c3, hf, c4, isOk] at hOk
      rcases hcv : parse_version p.latest_version with _ | cur
      · simp [update_paper, c1, c2, c3, hf, c4, hcv, isOk] at hOk
      rcases hnv : parse_version v with _ | newv
      · simp [update_paper, c1, c2, c3, hf, c4, hcv, hnv, isOk] at hOk
      by_cases c5 : verLe newv cur = true
      · simp [update_paper, c1, c2, c3, hf, c4, hcv, hnv, c5, isOk] at hOk
      simp [update_paper, c1, c2, c3, hf, c4, hcv, hnv, c5, htx]
    · intro hOk
      by_cases c1 : user.sub ≤ 0
      · simp [create_paper_status, c1, isOk] at hOk
      rcases hf : db.findPaper pid with _ | p
      · simp [create_paper_status, c1, hf, isOk] at hOk
      by_cases c2 : p.status ≠ stUploaded
      · simp [create_paper_status, c1, hf, c2, isOk] at hOk
      by_cases c3 : user.sub ≠ p.owner_id
      · simp [create_paper_status, c1, hf, c2, c3, isOk] at hOk
      have heq : user.sub = p.owner_id := not_ne_iff.mp c3
      have c1b : ¬ p.owner_id ≤ 0 := heq ▸ c1
      simp [create_paper_status, c1, c1b, hf, c2, c3, htx]
    · intro hOk
      by_cases c1 : user.sub ≤ 0
      · simp [update_paper_status, c1, isOk] at hOk
      rcases hf : readStatusSnap db pid with _ | snap
      · simp [update_paper_status, c1, hf, isOk] at hOk
      rcases hv : ups_validate snap tgt user with _ | e
      · simp [update_paper_status, c1, hf, hv, ups_commit, htx]
      · simp [update_paper_status, c1, hf, hv, isOk] at hOk

/-- C5 witness: with a failing commit, an otherwise-valid UpdatePaper
returns the server error and leaves the database untouched. -/
theorem write_ops_atomic_witness :
    update_paper (dbWith stUploaded) ⟨false, false, true⟩ 1 ("a.docx") 12
      ("v1.1") student5 ("k2") ("t1") =
      (dbWith stUploaded, Except.error ApiError.dbError) := by
  have h := write_ops_atomic (dbWith stUploaded) ⟨false, false, true⟩ 1 1 5 9
    ("a.docx") 12 ("v1.1") stFinal student5 ("k2") ("t1")
  exact (h.2.2.2.2 rfl).2.1 rfl

/-! ## C4 -/

/-- C4 (amended): every accepted mutation (paper create, paper update,
review-status create, status change) appends exactly one new
PaperHistory row, a rejected call appends none, and the mutation
operations never alter or remove an existing history row.  The new
row's version, size, status, storage key and submitter identity equal
the post-mutation Paper row's state; for the two status operations the
operator field agrees as well.  (The operator field is exempt in
general — see the counterexample: UpdatePaper with an empty submitter
username stores the empty name in the Paper row but the id fallback in
the history row, and the create operation leaves the Paper row's
operator unset.) -/
theorem history_append_per_mutation (db : DB) (tx : TxFail) (pid newId : Nat)
    (oid tid : Int) (fn : String) (sz : Nat) (v tgt : String)
    (user : CurrentUser) (k t : String) :
    (isOk (upload_paper db tx newId oid tid fn sz user k t).2 = false →
      (upload_paper db tx newId oid tid fn sz user k t).1.history =
        db.history) ∧
    (db.findPaper newId = none →
     isOk (upload_paper db tx newId oid tid fn sz user k t).2 = true →
      (∃ row, (upload_paper db tx newId oid tid fn sz user k t).1.history =
        db.history ++ [row]) ∧
      (∀ row p,
        (upload_paper db tx newId oid tid fn sz user k t).1.history =
          db.history ++ [row] →
        (upload_paper db tx newId oid tid fn sz user k t).1.findPaper newId =
          some p →
        row.paper_id = newId ∧ row.version = p.latest_version ∧
        row.version = p.version ∧ row.size = p.size ∧ row.status = p.status ∧
        row.oss_key = p.oss_key ∧
        row.submitted_by_name = p.submitted_by_name ∧
        row.submitted_by_role = p.submitted_by_role)) ∧
    (isOk (update_paper db tx pid fn sz v user k t).2 = false →
      (update_paper db tx pid fn sz v user k t).1.history = db.history) ∧
    (isOk (update_paper db tx pid fn sz v user k t).2 = true →
      (∃ row, (update_paper db tx pid fn sz v user k t).1.history =
        db.history ++ [row]) ∧
      (∀ row p,
        (update_paper db tx pid fn sz v user k t).1.history =
          db.history ++ [row] →
        (update_paper db tx pid fn sz v user k t).1.findPaper pid = some p →
        row.paper_id = pid ∧ row.version = p.latest_version ∧
        row.version = p.version ∧ row.size = p.size ∧ row.status = p.status ∧
        row.oss_key = p.oss_key ∧
        row.submitted_by_name = p.submitted_by_name ∧
        row.submitted_by_role = p.submitted_by_role)) ∧
    (isOk (create_paper_status db tx pid user t).2 = false →
      (create_paper_status db tx pid user t).1.history = db.history) ∧
    (isOk (create_paper_status db tx pid user t).2 = true →
      (∃ row, (create_paper_status db tx pid user t).1.history =
        db.history ++ [row]) ∧
      (∀ row p,
        (create_paper_status db tx pid user t).1.history =
          db.history ++ [row] →
        (create_paper_status db tx pid user t).1.findPaper pid = some p →
        row.paper_id = pid ∧ row.version = p.latest_version ∧
        row.size = p.size ∧ row.status = p.status ∧
        row.oss_key = p.oss_key ∧
        row.submitted_by_name = p.submitted_by_name ∧
        row.submitted_by_role = p.submitted_by_role ∧
        some row.operated_by = p.operated_by)) ∧
    (isOk (update_paper_status db tx pid tgt user t).2 = false →
      (update_paper_status db tx pid tgt user t).1.history = db.history) ∧
    (isOk (update_paper_status db tx pid tgt user t).2 = true →
      (∃ row, (update_paper_status db tx pid tgt user t).1.history =
        db.history ++ [row]) ∧
      (∀ row p,
        (update_paper_status db tx pid tgt user t).1.history =
          db.history ++ [row] →
        (update_paper_status db tx pid tgt user t).1.findPaper pid = some p →
        row.paper_id = pid ∧ row.version = p.latest_version ∧
        row.size = p.size ∧ row.status = p.status ∧
        row.oss_key = p.oss_key ∧
        row.submitted_by_name = p.submitted_by_name ∧
        row.submitted_by_role = p.submitted_by_role ∧
        some row.operated_by = p.operated_by)) := by
  refine ⟨?_, ?_, ?_, ?_, ?_, ?_, ?_, ?_⟩
  · unfold upload_paper
    repeat' split
    all_goals intro h
    all_goals first
      | rfl
      | simp [isOk] at h
  · intro hfresh hOk
    by_cases c1 : oid ≤ 0
    · simp [upload_paper, c1, isOk] at hOk
    by_cases c2 : tid ≤ 0
    · simp [upload_paper, c1, c2, isOk] at hOk
    by_cases c3 : oid ≠ user.sub
    · simp [upload_paper, c1, c2, c3, isOk] at hOk
    have heq : oid = user.sub := not_ne_iff.mp c3
    have c1b : ¬ user.sub ≤ 0 := heq ▸ c1
    by_cases c4 : ¬ endsWithDocx fn = true
    · simp [upload_paper, c1, c1b, c2, c3, c4, isOk] at hOk
    by_cases c5 : sz > 104857600
    · simp [upload_paper, c1, c1b, c2, c3, c4, c5, isOk] at hOk
    by_cases ctx : tx.any = true
    · simp [upload_paper, c1, c1b, c2, c3, c4, c5, ctx, isOk] at hOk
    constructor
    · simp [upload_paper, c1, c1b, c2, c3, c4, c5, ctx]
    · intro row p hrow hp
      have hfresh2 : db.papers.lookup newId = none := hfresh
      simp [upload_paper, c1, c1b, c2, c3, c4, c5, ctx, DB.findPaper,
            lookup_append_fresh, hfresh2] at hrow hp
      subst hp
      rw [← hrow]
      exact ⟨rfl, rfl, rfl, rfl, rfl, rfl, rfl, rfl⟩
  · unfold update_paper
    repeat' split
    all_goals intro h
    all_goals first
      | rfl
      | simp [isOk] at h
  · intro hOk
    by_cases c1 : ¬ endsWithDocx fn = true
    · simp [update_paper, c1, isOk] at hOk
    by_cases c2 : sz = 0
    · simp [update_paper, c1, c2, isOk] at hOk
    by_cases c3 : sz > 104857600
    · simp [update_paper, c1, c2, c3, isOk] at hOk
    rcases hf : db.findPaper pid with _ | q
    · simp [update_paper, c1, c2, c3, hf, isOk] at hOk
    by_cases c4 : q.owner_id ≠ user.sub
    · simp [update_paper, c1, c2, c3, hf, c4, isOk] at hOk
    rcases hcv : parse_version q.latest_version with _ | cur
    · simp [update_paper, c1, c2, c3, hf, c4, hcv, isOk] at hOk
    rcases hnv : parse_version v with _ | newv
    · simp [update_paper, c1, c2, c3, hf, c4, hcv, hnv, isOk] at hOk
    by_cases c5 : verLe newv cur = true
    · simp [update_paper, c1, c2, c3, hf, c4, hcv, hnv, c5, isOk] at hOk
    by_cases ctx : tx.any = true
    · simp [update_paper, c1, c2, c3, hf, c4, hcv, hnv, c5, ctx, isOk] at hOk
    constructor
    · simp [update_paper, c1, c2, c3, hf, c4, hcv, hnv, c5, ctx,
            addHistory_history, setPaper_history]
    · intro row p hrow hp
      simp [update_paper, c1, c2, c3, hf, c4, hcv, hnv, c5, ctx,
            addHistory_history, setPaper_history, findPaper_addHistory,
            findPaper_setPaper] at hrow hp
      subst hp
      rw [← hrow]
      exact ⟨rfl, rfl, rfl, rfl, rfl, rfl, rfl, rfl⟩
  · unfold create_paper_status
    repeat' split
    all_goals intro h
    all_goals first
      | rfl
      | simp [isOk] at h
  · intro hOk
    by_cases c1 : user.sub ≤ 0
    · simp [create_paper_status, c1, isOk] at hOk
    rcases hf : db.findPaper pid with _ | q
    · simp [create_paper_status, c1, hf, isOk] at hOk
    by_cases c2 : q.status ≠ stUploaded
    · simp [create_paper_status, c1, hf, c2, isOk] at hOk
    by_cases c3 : user.sub ≠ q.owner_id
    · simp [create_paper_status, c1, hf, c2, c3, isOk] at hOk
    have heq : user.sub = q.owner_id := not_ne_iff.mp c3
    have c1b : ¬ q.owner_id ≤ 0 := heq ▸ c1
    by_cases ctx : tx.any = true
    · simp [create_paper_status, c1, c1b, hf, c2, c3, ctx, isOk] at hOk
    constructor
    · simp [create_paper_status, c1, c1b, hf, c2, c3, ctx,
            addHistory_history, setPaper_history]
    · intro row p hrow hp
      simp [create_paper_status, c1, c1b, hf, c2, c3, ctx,
            addHistory_history, setPaper_history, findPaper_addHistory,
            findPaper_setPaper] at hrow hp
      subst hp
      rw [← hrow]
      exact ⟨rfl, rfl, rfl, rfl, rfl, rfl, rfl, rfl⟩
  · unfold update_paper_status ups_commit
    repeat' split
    all_goals intro h
    all_goals first
      | rfl
      | simp [isOk] at h
  · intro hOk
    by_cases c1 : user.sub ≤ 0
    · simp [update_paper_status, c1, isOk] at hOk
    rcases hf : readStatusSnap db pid with _ | snap
    · simp [update_paper_status, c1, hf, isOk] at hOk
    rcases hv : ups_validate snap tgt user with _ | e
    swap
    · simp [update_paper_status, c1, hf, hv, isOk] at hOk
    obtain ⟨q, hfq, hsnap⟩ := Option.map_eq_some'.mp hf
    subst hsnap
    by_cases ctx : tx.any = true
    · simp [update_paper_status, c1, hf, hv, ups_commit, ctx, isOk] at hOk
    constructor
    · simp [update_paper_status, c1, hf, hv, ups_commit, hfq, ctx,
            addHistory_history, setPaper_history]
    · intro row p hrow hp
      simp [update_paper_status, c1, hf, hv, ups_commit, hfq, ctx,
            addHistory_history, setPaper_history, findPaper_addHistory,
            findPaper_setPaper] at hrow hp
      subst hp
      rw [← hrow]
      exact ⟨rfl, rfl, rfl, rfl, rfl, rfl, rfl, rfl⟩

/-- C4 witness: the owner's accepted UpdatePaper appends exactly one
history row matching the post-mutation paper snapshot. -/
theorem history_append_per_mutation_witness :
    (∃ row, (update_paper (dbWith stUploaded) noFail 1 ("a.docx") 12 ("v1.1")
      student5 ("k2") ("t1")).1.history =
        (dbWith stUploaded).history ++ [row]) := by
  have h := history_append_per_mutation (dbWith stUploaded) noFail 1 1 5 9
    ("a.docx") 12 ("v1.1") stFinal student5 ("k2") ("t1")
  exact (h.2.2.2.1 rfl).1

/-- C4 counterexample: UpdatePaper by an owner whose username is empty
(as `_parse_current_user` yields for the JSON `{"sub": 5}`) succeeds,
writes `operated_by = ""` to the Paper row but `operated_by = "5"` to
the new history row, so the history row's operator field does not equal
the post-mutation Paper row's operator field. -/
theorem history_operator_mismatch :
    isOk (update_paper (dbWith stUploaded) noFail 1 ("a.docx") 12 ("v1.1")
      noName5 ("k2") ("t1")).2 = true ∧
    ((update_paper (dbWith stUploaded) noFail 1 ("a.docx") 12 ("v1.1")
      noName5 ("k2") ("t1")).1.findPaper 1).map Paper.operated_by =
      some (some ("")) ∧
    ((update_paper (dbWith stUploaded) noFail 1 ("a.docx") 12 ("v1.1")
      noName5 ("k2") ("t1")).1.history.map HistoryRow.operated_by) =
      [("5")] ∧
    ("" : String) ≠ "5" := by
  refine ⟨rfl, rfl, rfl, by decide⟩

/-! ## C7 -/

theorem digit_not_space (c : Char) (h : isAsciiDigit c = true) :
    isPySpace c = false := by
  cases hc : isPySpace c
  · rfl
  · exfalso
    simp only [isPySpace, Bool.or_eq_true, decide_eq_true_eq] at hc
    rcases hc with ((((e | e) | e) | e) | e) | e <;> subst e <;>
      exact absurd h (by decide)

theorem digit_toNat_le (c : Char) (h : isAsciiDigit c = true) :
    48 ≤ c.toNat ∧ c.toNat ≤ 57 := by
  simpa [isAsciiDigit] using h

theorem digit_ne_of_toNat (c d : Char) (h : isAsciiDigit c = true)
    (hd : isAsciiDigit d = false) : c ≠ d := by
  intro e
  subst e
  rw [h] at hd
  cases hd

theorem toLower_digit (c : Char) (h : isAsciiDigit c = true) :
    c.toLower = c := by
  obtain ⟨h1, h2⟩ := digit_toNat_le c h
  simp only [Char.toLower]
  rw [if_neg]
  omega

theorem dropWhile_eq_self_of_head (l : List Char) (p : Char → Bool)
    (h : ∀ c, l.head? = some c → p c = false) : l.dropWhile p = l := by
  cases l with
  | nil => rfl
  | cons a t => simp [List.dropWhile_cons, h a rfl]

theorem trimChars_eq_self (cs : List Char)
    (h1 : ∀ c, cs.head? = some c → isPySpace c = false)
    (h2 : ∀ c, cs.getLast? = some c → isPySpace c = false) :
    trimChars cs = cs := by
  unfold trimChars
  rw [dropWhile_eq_self_of_head cs isPySpace h1]
  rw [dropWhile_eq_self_of_head cs.reverse isPySpace]
  · exact List.reverse_reverse cs
  · intro c hc
    rw [List.head?_reverse] at hc
    exact h2 c hc

theorem pySplitDot_ne_nil (cs : List Char) : pySplitDot cs ≠ [] := by
  cases cs with
  | nil => simp [pySplitDot]
  | cons c t =>
    unfold pySplitDot
    split_ifs
    · simp
    · cases h : pySplitDot t <;> simp

theorem pySplitDot_no_dot (b : List Char) (hb : ('.') ∉ b) :
    pySplitDot b = [b] := by
  induction b with
  | nil => rfl
  | cons c t ih =>
    have hc : ¬ c = '.' := by
      intro e
      exact hb (by simp [e])
    have ht : ('.') ∉ t := fun h => hb (by simp [h])
    unfold pySplitDot
    rw [if_neg hc, ih ht]

theorem pySplitDot_split (a b : List Char) (ha : ('.') ∉ a) (hb : ('.') ∉ b) :
    pySplitDot (a ++ '.' :: b) = [a, b] := by
  induction a with
  | nil =>
    simp [pySplitDot, pySplitDot_no_dot b hb]
  | cons c t ih =>
    have hc : ¬ c = '.' := by
      intro e
      exact ha (by simp [e])
    have ht : ('.') ∉ t := fun h => ha (by simp [h])
    rw [List.cons_append]
    simp [pySplitDot, hc, ih ht]

theorem pySplitDot_one (cs : List Char) :
    ∀ b, pySplitDot cs = [b] → cs = b ∧ ('.') ∉ cs := by
  induction cs with
  | nil =>
    intro b h
    simp [pySplitDot] at h
    subst h
    exact ⟨rfl, by simp⟩
  | cons c t ih =>
    intro b h
    by_cases hc : c = '.'
    · subst hc
      simp only [pySplitDot, if_pos rfl] at h
      injection h with h1 h2
      exact absurd h2 (pySplitDot_ne_nil t)
    · simp only [pySplitDot, if_neg hc] at h
      rcases hsp : pySplitDot t with _ | ⟨hd, tl⟩
      · exact absurd hsp (pySplitDot_ne_nil t)
      · rw [hsp] at h
        injection h with h1 h2
        subst h2
        obtain ⟨ht, hnd⟩ := ih hd hsp
        subst ht
        refine ⟨by rw [h1], ?_⟩
        intro hm
        rcases List.mem_cons.mp hm with e | e
        · exact hc e.symm
        · exact hnd e

theorem pySplitDot_two (cs : List Char) :
    ∀ a b, pySplitDot cs = [a, b] →
      cs = a ++ '.' :: b ∧ ('.') ∉ a ∧ ('.') ∉ b := by
  induction cs with
  | nil =>
    intro a b h
    simp [pySplitDot] at h
  | cons c t ih =>
    intro a b h
    by_cases hc : c = '.'
    · subst hc
      simp only [pySplitDot, if_pos rfl] at h
      injection h with h1 h2
      obtain ⟨ht, hnd⟩ := pySplitDot_one t b h2
      subst ht
      subst h1
      exact ⟨rfl, by simp, hnd⟩
    · simp only [pySplitDot, if_neg hc] at h
      rcases hsp : pySplitDot t with _ | ⟨hd, tl⟩
      · exact absurd hsp (pySplitDot_ne_nil t)
      · rw [hsp] at h
        injection h with h1 h2
        subst h2
        obtain ⟨ht, hna, hnb⟩ := ih hd b hsp
        subst ht
        refine ⟨by rw [← h1]; simp, ?_, hnb⟩
        rw [← h1]
        intro hm
        rcases List.mem_cons.mp hm with e | e
        · exact hc e.symm
        · exact hna e

theorem pyDigitsRest_digits (cs : List Char)
    (h : ∀ c ∈ cs, isAsciiDigit c = true) : pyDigitsRest cs = true := by
  induction cs with
  | nil => rfl
  | cons c t ih =>
    have hc := h c (by simp)
    have hne : ¬ c = '_' := digit_ne_of_toNat c '_' hc (by decide)
    cases t with
    | nil => simpa [pyDigitsRest] using hc
    | cons d r =>
      simp [pyDigitsRest, hne, hc, ih (fun x hx => h x (by simp [hx]))]

theorem pyIntLit_digits (cs : List Char) (hne : cs ≠ [])
    (h : ∀ c ∈ cs, isAsciiDigit c = true) :
    pyIntLit cs = some (digitsVal cs) := by
  cases cs with
  | nil => exact absurd rfl hne
  | cons c t =>
    have hc := h c (by simp)
    have hr := pyDigitsRest_digits t (fun d hd => h d (by simp [hd]))
    have hfilter : List.filter (fun d => !decide (d = '_')) (c :: t) = c :: t := by
      rw [List.filter_eq_self]
      intro d hd
      simpa using digit_ne_of_toNat d '_' (h d hd) (by decide)
    simp [pyIntLit, hc, hr, hfilter]

theorem pyIntChars_digits (cs : List Char) (hne : cs ≠ [])
    (h : ∀ c ∈ cs, isAsciiDigit c = true) :
    pyIntChars cs = some ((digitsVal cs : Nat) : Int) := by
  have htrim : trimChars cs = cs := by
    refine trimChars_eq_self cs ?_ ?_
    · intro c hc
      exact digit_not_space c (h c (by
        cases cs with
        | nil => cases hc
        | cons a t =>
          injection hc with hc
          simp [hc]))
    · intro c hc
      have hm : c ∈ cs := List.mem_of_mem_getLast? hc
      exact digit_not_space c (h c hm)
  have hhead : ∃ c0 t, cs = c0 :: t := by
    cases cs with
    | nil => exact absurd rfl hne
    | cons a t => exact ⟨a, t, rfl⟩
  obtain ⟨c0, t, hct⟩ := hhead
  subst hct
  have hc0 := h c0 (by simp)
  simp only [pyIntChars, htrim]
  rw [if_neg (digit_ne_of_toNat c0 '+' hc0 (by decide))]
  rw [if_neg (digit_ne_of_toNat c0 '-' hc0 (by decide))]
  rw [pyIntLit_digits (c0 :: t) (by simp) h]
  rfl

theorem digit_ne_v (c : Char) (h : isAsciiDigit c = true) :
    (c = 'v') = False := by
  simp only [eq_iff_iff, iff_false]
  exact digit_ne_of_toNat c 'v' h (by decide)

/-- Computation of `parse_version` on a strictly digit-shaped input:
an optional single leading `v`/`V` followed by two nonempty digit runs
joined by a dot parses to the two digit values. -/
theorem parse_version_digits (s : String) (a b : List Char)
    (ha : a ≠ []) (hb : b ≠ [])
    (hda : ∀ c ∈ a, isAsciiDigit c = true)
    (hdb : ∀ c ∈ b, isAsciiDigit c = true)
    (hX : s.toList = a ++ '.' :: b ∨
      ∃ v0, (v0 = 'v' ∨ v0 = 'V') ∧ s.toList = v0 :: (a ++ '.' :: b)) :
    parse_version s = some ((digitsVal a : Int), (digitsVal b : Int)) := by
  obtain ⟨lb, hlb⟩ : ∃ lb, b.getLast? = some lb := by
    cases hg : b.getLast? with
    | none => exact absurd (List.getLast?_eq_none_iff.mp hg) hb
    | some x => exact ⟨x, rfl⟩
  have hlbd : isAsciiDigit lb = true := hdb lb (List.mem_of_mem_getLast? hlb)
  have hlast : ∀ pre : List Char, (pre ++ '.' :: b).getLast? = some lb := by
    intro pre
    rw [List.getLast?_append]
    have : ('.' :: b).getLast? = some lb := by
      have : ('.' :: b) = ['.'] ++ b := rfl
      rw [this, List.getLast?_append, hlb]
      rfl
    rw [this]
    rfl
  have hmapa : a.map Char.toLower = a := by
    rw [List.map_congr_left (fun c hc => toLower_digit c (hda c hc))]
    exact List.map_id a
  have hmapb : b.map Char.toLower = b := by
    rw [List.map_congr_left (fun c hc => toLower_digit c (hdb c hc))]
    exact List.map_id b
  have hnda : ('.') ∉ a := by
    intro hm
    exact absurd (hda _ hm) (by decide)
  have hndb : ('.') ∉ b := by
    intro hm
    exact absurd (hdb _ hm) (by decide)
  obtain ⟨a0, a1, ha01⟩ : ∃ a0 a1, a = a0 :: a1 := by
    cases a with
    | nil => exact absurd rfl ha
    | cons x t => exact ⟨x, t, rfl⟩
  have ha0 : isAsciiDigit a0 = true := hda a0 (by simp [ha01])
  have hdrop : (a ++ '.' :: b).dropWhile (fun c => c = 'v') = a ++ '.' :: b := by
    refine dropWhile_eq_self_of_head _ _ ?_
    intro c hc
    rw [ha01, List.cons_append, List.head?_cons] at hc
    injection hc with hc
    subst hc
    simp [digit_ne_v a0 ha0]
  have hmain : cleanVersion s = a ++ '.' :: b := by
    unfold cleanVersion
    rcases hX with hX | ⟨v0, hv0, hX⟩
    · rw [hX]
      rw [trimChars_eq_self]
      · rw [List.map_append, hmapa]
        have : ('.' :: b).map Char.toLower = '.' :: b := by
          simp [hmapb]
        rw [this, hdrop]
      · intro c hc
        rw [ha01, List.cons_append, List.head?_cons] at hc
        injection hc with hc
        subst hc
        exact digit_not_space a0 ha0
      · intro c hc
        rw [hlast] at hc
        injection hc with hc
        subst hc
        exact digit_not_space lb hlbd
    · rw [hX]
      rw [trimChars_eq_self]
      · rw [List.map_cons, List.map_append, hmapa]
        have hb2 : ('.' :: b).map Char.toLower = '.' :: b := by
          simp [hmapb]
        rw [hb2]
        have hv0l : v0.toLower = 'v' := by
          rcases hv0 with e | e <;> subst e <;> decide
        rw [hv0l]
        rw [List.dropWhile_cons]
        simp only [decide_eq_true_eq, if_pos rfl]
        exact hdrop
      · intro c hc
        rw [List.head?_cons] at hc
        injection hc with hc
        subst hc
        rcases hv0 with e | e <;> subst e <;> decide
      · intro c hc
        have : ((v0 :: (a ++ '.' :: b)).getLast?) = some lb := by
          have : v0 :: (a ++ '.' :: b) = (v0 :: a) ++ '.' :: b := by simp
          rw [this, hlast]
        rw [this] at hc
        injection hc with hc
        subst hc
        exact digit_not_space lb hlbd
  unfold parse_version
  rw [hmain, pySplitDot_split a b hnda hndb]
  have hna0 : ¬ ((digitsVal a : Int) < 0) := by omega
  have hnb0 : ¬ ((digitsVal b : Int) < 0) := by omega
  simp [pyIntChars_digits a ha hda, pyIntChars_digits b hb hdb, hna0, hnb0]

/-- C7 (amended): `parse` accepts at least every string of the claim's
form — optional single leading `v`/`V` followed by `<digits>.<digits>`
— returning the non-negative digit pair; it never returns a negative
component (negative literals are parsed and then rejected with the
format error); and `compare` orders by strict (major, minor) tuple
order.  The claim's "exactly when" is corrected: because the source
uses `lstrip('v')` and Python `int`, the parser also accepts inputs
outside that form — multiple leading `v`s, surrounding and inner
whitespace, signs, and digit-group underscores (counterexample). -/
theorem parse_version_amended :
    (∀ s mn, specVersionParse s = some mn → parse_version s = some mn) ∧
    (∀ s a b, parse_version s = some (a, b) → 0 ≤ a ∧ 0 ≤ b) ∧
    (∀ x y : Int × Int,
      (compareVersions x y = VerOrd.less ↔ verLt x y = true) ∧
      (compareVersions x y = VerOrd.equal ↔ x = y) ∧
      (compareVersions x y = VerOrd.greater ↔ verLt y x = true)) := by
  refine ⟨?_, ?_, ?_⟩
  · intro s mn hs
    unfold specVersionParse at hs
    rcases hsp : pySplitDot (dropOneV s.toList) with _ | ⟨a, t1⟩
    · rw [hsp] at hs
      simp at hs
    rcases t1 with _ | ⟨b, t2⟩
    · rw [hsp] at hs
      simp at hs
    rcases t2 with _ | ⟨z, r⟩
    swap
    · rw [hsp] at hs
      simp at hs
    rw [hsp] at hs
    simp only [Option.ite_none_right_eq_some, Option.some.injEq] at hs
    obtain ⟨hcond, hmn⟩ := hs
    simp only [Bool.and_eq_true, decide_eq_true_eq, ne_eq,
               List.all_eq_true] at hcond
    obtain ⟨⟨⟨ha, hda⟩, hb⟩, hdb⟩ := hcond
    subst hmn
    obtain ⟨hXeq, hna, hnb⟩ := pySplitDot_two (dropOneV s.toList) a b hsp
    have hX : s.toList = a ++ '.' :: b ∨
        ∃ v0, (v0 = 'v' ∨ v0 = 'V') ∧ s.toList = v0 :: (a ++ '.' :: b) := by
      rcases hsl : s.toList with _ | ⟨c0, rest⟩
      · rw [hsl] at hXeq
        simp [dropOneV] at hXeq
      · rw [hsl] at hXeq
        simp only [dropOneV] at hXeq
        by_cases hc0 : c0 = 'v' ∨ c0 = 'V'
        · rw [if_pos hc0] at hXeq
          exact Or.inr ⟨c0, hc0, by rw [hXeq]⟩
        · rw [if_neg hc0] at hXeq
          exact Or.inl hXeq
    exact parse_version_digits s a b ha hb hda hdb hX
  · intro s a b h
    unfold parse_version at h
    rcases hsp : pySplitDot (cleanVersion s) with _ | ⟨x, t1⟩
    · rw [hsp] at h
      simp at h
    rcases t1 with _ | ⟨y, t2⟩
    · rw [hsp] at h
      simp at h
    rcases t2 with _ | ⟨z, r⟩
    swap
    · rw [hsp] at h
      simp at h
    rw [hsp] at h
    rcases hx : pyIntChars x with _ | ma
    · simp [hx] at h
    rcases hy : pyIntChars y with _ | mb
    · simp [hx, hy] at h
    simp only [hx, hy] at h
    split at h
    · cases h
    · rename_i hcond
      injection h with hpair
      rw [Prod.mk.injEq] at hpair
      obtain ⟨h3, h4⟩ := hpair
      subst h3
      subst h4
      simp only [Bool.or_eq_true, decide_eq_true_eq, not_or] at hcond
      omega
  · intro x y
    obtain ⟨x1, x2⟩ := x
    obtain ⟨y1, y2⟩ := y
    unfold compareVersions
    refine ⟨?_, ?_, ?_⟩ <;> split_ifs with h1 h2 <;>
      simp_all [verLt, Prod.ext_iff] <;> omega

/-- C7 witness: the spec-form string V3.7 parses to (3, 7) through the
amended theorem. -/
theorem parse_version_amended_witness :
    parse_version ("V3.7") = some (3, 7) := by
  exact parse_version_amended.1 ("V3.7") (3, 7) rfl

/-- C7 counterexample: `parse` succeeds on strings that are not of the
claimed form <optional single v><int>.<int> — a doubled `v` prefix and
a whitespace-and-sign decorated input both parse — so "parse succeeds
exactly when s is of that form" is false. -/
theorem parse_version_liberal_counterexample :
    parse_version ("vv1.0") = some (1, 0) ∧
    specVersionFormat ("vv1.0") = false ∧
    parse_version (" +1.0 ") = some (1, 0) ∧
    specVersionFormat (" +1.0 ") = false := by
  refine ⟨rfl, rfl, rfl, rfl⟩

/-! ## C10 -/

theorem toList_eq_nil_iff (s : String) : s.toList = [] ↔ s = "" := by
  constructor
  · intro h
    exact String.ext h
  · intro h
    subst h
    rfl

theorem trimChars_digits (s : String) (h : allDigits s = true) :
    trimChars s.toList = s.toList := by
  simp only [allDigits, Bool.and_eq_true, decide_eq_true_eq, ne_eq,
             List.all_eq_true] at h
  obtain ⟨h1, h2⟩ := h
  refine trimChars_eq_self _ ?_ ?_
  · intro c hc
    exact digit_not_space c (h2 c (List.mem_of_mem_head? hc))
  · intro c hc
    exact digit_not_space c (h2 c (List.mem_of_mem_getLast? hc))

/-- C10: identity parsing at the public interface is total and never
raises: a missing, empty, whitespace-only, or unparseable-JSON
`current_user` input yields the unauthenticated sentinel actor (id 0,
empty name, no roles), so the status operations then fail with the
authentication error (HTTP 401) rather than a parse error; and a
purely numeric input string yields the actor with that integer id and
the single role `student`. -/
theorem parse_current_user_total (unq : String → String)
    (jl : String → Option Jval) (s : String) :
    (parse_current_user unq jl none = sentinelUser) ∧
    (parse_current_user unq jl (some ("")) = sentinelUser) ∧
    (unq s = s → trimChars s.toList = [] →
      parse_current_user unq jl (some s) = sentinelUser) ∧
    (unq s = s → allDigits s = false → jl s = none →
      parse_current_user unq jl (some s) = sentinelUser) ∧
    (unq s = s → allDigits s = true →
      parse_current_user unq jl (some s) =
        ⟨(digitsToNat s : Nat), ("user") ++ s, [("student")]⟩) ∧
    (∀ db tx pid tgt now,
      update_paper_status db tx pid tgt sentinelUser now =
        (db, Except.error ApiError.unauthenticated)) ∧
    (∀ db tx pid now,
      create_paper_status db tx pid sentinelUser now =
        (db, Except.error ApiError.unauthenticated)) := by
  refine ⟨rfl, rfl, ?_, ?_, ?_, ?_, ?_⟩
  · intro hunq htrim
    have htrim2 : trimChars s.data = [] := htrim
    by_cases hs0 : s = ""
    · simp [parse_current_user, hs0]
    · simp [parse_current_user, hs0, hunq, htrim2]
  · intro hunq hdig hjl
    by_cases hs0 : s = ""
    · simp [parse_current_user, hs0]
    · by_cases htr : trimChars s.data = []
      · simp [parse_current_user, hs0, hunq, htr]
      · simp [parse_current_user, hs0, hunq, htr, hdig, hjl]
  · intro hunq hdig
    have hs0 : ¬ s = "" := by
      simp only [allDigits, Bool.and_eq_true, decide_eq_true_eq, ne_eq] at hdig
      exact hdig.1
    have htr : ¬ trimChars s.toList = [] := by
      rw [trimChars_digits s hdig, toList_eq_nil_iff]
      exact hs0
    have htr2 : ¬ trimChars s.data = [] := htr
    simp [parse_current_user, hs0, hunq, htr2, hdig]
  · intro db tx pid tgt now
    simp [update_paper_status, sentinelUser]
  · intro db tx pid now
    simp [create_paper_status, sentinelUser]

/-- C10 witness: the numeric input 123 parses to the student actor with
id 123. -/
theorem parse_current_user_total_witness :
    parse_current_user id (fun _ => none) (some ("123")) =
      ⟨123, ("user123"), [("student")]⟩ := by
  have h := (parse_current_user_total id (fun _ => none) ("123")).2.2.2.2.1
  exact h rfl (by decide)

/-! ## C9 -/

/-- C9: the status-change endpoint reads the paper with plain SELECTs
(no `FOR UPDATE` row lock) and validates only against that snapshot, so
two concurrent ChangeStatus calls on the same paper can both validate
against the same stale current status and both commit.  Schedule on
the Reviewed paper of student 5 / teacher 9: both calls take their
snapshot; call A (teacher → Final) validates and commits; call B
(teacher → Reviewed) then validates against its stale snapshot — not
the now-Final row — and also commits, overwriting Final with Reviewed.
The first conjunct checks that the sequential endpoint is literally
the read phase composed with the validate-and-commit phase used in the
interleaving. -/
theorem changeStatus_lost_update_race :
    update_paper_status (dbWith stReviewed) noFail 1 stFinal teacher9 ("t1") =
      ups_commit (dbWith stReviewed) noFail 1 raceSnap stFinal teacher9
        ("t1") ∧
    readStatusSnap (dbWith stReviewed) 1 = some raceSnap ∧
    ups_validate raceSnap stFinal teacher9 = none ∧
    ups_validate raceSnap stReviewed teacher9 = none ∧
    isOk (ups_commit (dbWith stReviewed) noFail 1 raceSnap stFinal teacher9
      ("t1")).2 = true ∧
    (((ups_commit (dbWith stReviewed) noFail 1 raceSnap stFinal teacher9
      ("t1")).1).findPaper 1).map Paper.status = some stFinal ∧
    isOk (ups_commit (ups_commit (dbWith stReviewed) noFail 1 raceSnap stFinal
      teacher9 ("t1")).1 noFail 1 raceSnap stReviewed teacher9 ("t2")).2 =
      true ∧
    (((ups_commit (ups_commit (dbWith stReviewed) noFail 1 raceSnap stFinal
      teacher9 ("t1")).1 noFail 1 raceSnap stReviewed teacher9
      ("t2")).1).findPaper 1).map Paper.status = some stReviewed := by
  refine ⟨rfl, rfl, rfl, rfl, rfl, rfl, rfl, rfl⟩

end CDAI
